import Mathlib

/-!
Verification development for the decode-time core of mistral.rs:
the constrained sampling step (`sample_sequence`), the speculative
decode step (`sample_target_sequence_speculative`), and the
Gemma/Llama pipeline dispatch (`is_xlora`, `forward`, `_setup_model`).

Source files embedded:
  mistralrs-core/src/pipeline/sampling.rs
  mistralrs-core/src/pipeline/gemma.rs
  mistralrs-core/src/pipeline/llama.rs

Interfaces whose implementations live outside the embedded files
(the aici vocabulary trie, the grammar recognizers, the Sampler and
the candle tensor kernels) are modelled from the specification; each
such definition says so in its doc comment.
-/

set_option autoImplicit false

namespace MistralRS

/-- A token id (Rust `u32`). -/
abbrev Token := Nat

/-- A logit value: a finite `f32` (modelled as an integer-valued
abstraction, since only finiteness versus `-f32::INFINITY` matters to
the control flow) or negative infinity. -/
inductive LVal where
  | negInf : LVal
  | fin : Int → LVal
deriving DecidableEq, Repr

/-- Addition of logit values, as `f32` addition behaves on the values
that occur here (finite values and `-inf`): `-inf` absorbs. -/
def LVal.add : LVal → LVal → LVal
  | .negInf, _ => .negInf
  | .fin _, .negInf => .negInf
  | .fin a, .fin b => .fin (a + b)

/-- A flat per-vocabulary-token logits vector (the tensor after
`squeeze(0)?.squeeze(0)?.to_dtype(DType::F32)?` in `sample_sequence`). -/
abbrev Logits := List LVal

/-- The result of one sampling decision (`sampler::Logprobs`):
chosen token id, optional per-token log-probability, optional top-k
alternatives. Log-probabilities are opaque to the decode step. -/
structure Logprobs where
  token : Token
  logprob : Option Int
  top_logprobs : Option (List (Token × Int))
deriving DecidableEq, Repr

/-- Modelled from the spec: a grammar recognizer automaton
(`SequenceRecognizer::Regex` / `::Cfg` payload together with the
`TokTrie` queries made on it). `state` is the current automaton
state; `allowed st t` answers `tok_trie.token_allowed(r, t)` and
`next st t` is the state transition of `tok_trie.append_token(r, t)`.
The concrete regex/CFG engines live in `aici`, outside the embedded
files. -/
structure Recognizer where
  state : Nat
  allowed : Nat → Token → Bool
  next : Nat → Token → Nat

/-- `sequence::SequenceRecognizer`: variant over regex-based,
grammar(CFG)-based, or no constraint. -/
inductive SequenceRecognizer where
  | regex : Recognizer → SequenceRecognizer
  | cfg : Recognizer → SequenceRecognizer
  | none : SequenceRecognizer

/-- Whether a token is currently grammar-valid for the recognizer
(`true` unconditionally for `SequenceRecognizer::None`). -/
def SequenceRecognizer.allows : SequenceRecognizer → Token → Bool
  | .regex r, t => r.allowed r.state t
  | .cfg r, t => r.allowed r.state t
  | .none, _ => true

/-- Advance the recognizer by one accepted token
(`tok_trie.append_token`); no-op for `None`. -/
def SequenceRecognizer.advance : SequenceRecognizer → Token → SequenceRecognizer
  | .regex r, t => .regex { r with state := r.next r.state t }
  | .cfg r, t => .cfg { r with state := r.next r.state t }
  | .none, _ => .none

/-- Modelled from the spec: the Sampler is opaque to the decode step
beyond "consumes logits + recent tokens + rng, returns one token and
optional log-probability". The shared rng (`Arc<Mutex<Isaac64Rng>>`)
is modelled as an explicitly threaded state; `Option.none` models a
sampling failure (the `?` inside `sample_async!`). -/
structure Sampler where
  sample : Logits → List Token → Bool → Nat → Option (Logprobs × Nat)

/-- The per-sequence state `sample_sequence` reads and mutates: the
generated-token list, the grammar recognizer, and the sampler
configuration (`sequence::Sequence`, restricted to the fields the
decode step touches). -/
structure Sequence where
  toks : List Token
  recognizer : SequenceRecognizer
  sampler : Sampler

/-- Modelled from the spec: the vocabulary trie as seen by the decode
step — only its `vocab_size()` is consulted directly (the per-state
valid-token queries are carried by `Recognizer`). -/
structure TokTrie where
  vocab_size : Nat

/-- Modelled from the spec: `TokenSet::apply_to(&mut acc)` sets the
entry of every currently-valid token to `0.0`, leaving the rest of
`acc` unchanged. -/
def apply_to (token_set : List Bool) (acc : List LVal) : List LVal :=
  List.zipWith (fun b v => if b then LVal.fin 0 else v) token_set acc

/-- Modelled from the spec: `tok_trie.compute_bias(r, &mut token_set)`
fills the valid-token set over the whole vocabulary for the
recognizer's current state. -/
def compute_token_set (tok_trie : TokTrie) (r : Recognizer) : List Bool :=
  (List.range tok_trie.vocab_size).map (fun t => r.allowed r.state t)

/-- `get_bias_if_not_allowed!(tok_trie, r, tok)`: `none` when `tok`
is currently allowed, otherwise the valid-token set used to build the
bias. Modelled from the spec for the macro body (the call sites are
sampling.rs lines 38-46). -/
def get_bias_if_not_allowed (tok_trie : TokTrie) (r : Recognizer) (tok : Token) :
    Option (List Bool) :=
  if r.allowed r.state tok then Option.none
  else Option.some (compute_token_set tok_trie r)

/-- The `match &mut seq.recognizer { ... }` at sampling.rs lines 38-46:
query the recognizer (through the trie) for whether the tentative
token is grammar-valid; `None` recognizers skip the constraint. -/
def recognizerBias (tok_trie : TokTrie) (rec : SequenceRecognizer) (tok : Token) :
    Option (List Bool) :=
  match rec with
  | .regex r => get_bias_if_not_allowed tok_trie r tok
  | .cfg r => get_bias_if_not_allowed tok_trie r tok
  | .none => Option.none

/-- Elementwise tensor addition
(`(logits + Tensor::from_slice(&acc, acc.len(), &Device::Cpu)?)?`):
fails (as candle does) when the shapes mismatch. -/
def tensorAdd (a b : Logits) : Option Logits :=
  if a.length = b.length then Option.some (List.zipWith LVal.add a b) else Option.none

/-- The biased logits built on the resample path (sampling.rs lines
48-51): `acc = vec![-f32::INFINITY; vocab_size]`, then
`token_set.apply_to(&mut acc)`, then added to the original logits. -/
def biasedLogits (tok_trie : TokTrie) (token_set : List Bool) (logits : Logits) :
    Option Logits :=
  tensorAdd logits (apply_to token_set (List.replicate tok_trie.vocab_size LVal.negInf))

/-- `let start_at = seq.get_toks().len().saturating_sub(repeat_last_n)`
(sampling.rs line 23); `Nat` subtraction saturates at 0 exactly as
`saturating_sub` does. -/
def start_at (seq : Sequence) (repeat_last_n : Nat) : Nat :=
  seq.toks.length - repeat_last_n

/-- The repeat-penalty context `seq.get_toks()[start_at..].to_vec()`
(sampling.rs lines 27 and 53; the token list is unchanged between the
two, so both evaluate to this). -/
def repeat_context (seq : Sequence) (repeat_last_n : Nat) : List Token :=
  seq.toks.drop (start_at seq repeat_last_n)

/-- `sample_sequence` (sampling.rs lines 13-78). Returns the accepted
token's `Logprobs` together with the updated sequence state and rng;
`Option.none` models a propagated `candle_core::Error`. The
`use_async_pool` placement hint has no semantic effect and is not
modelled. -/
def sample_sequence (logits : Logits) (seq : Sequence) (return_logprobs : Bool)
    (repeat_last_n : Nat) (tok_trie : TokTrie) (rng : Nat) :
    Option (Logprobs × Sequence × Nat) :=
  match seq.sampler.sample logits (repeat_context seq repeat_last_n) return_logprobs rng with
  | Option.none => Option.none
  | Option.some (first_lobprobs_response, rng1) =>
    match recognizerBias tok_trie seq.recognizer first_lobprobs_response.token with
    | Option.some token_set =>
      match biasedLogits tok_trie token_set logits with
      | Option.none => Option.none
      | Option.some new_logits =>
        match seq.sampler.sample new_logits (repeat_context seq repeat_last_n)
            return_logprobs rng1 with
        | Option.none => Option.none
        | Option.some (second_logprobs_response, rng2) =>
          Option.some (second_logprobs_response,
            { seq with recognizer := seq.recognizer.advance second_logprobs_response.token },
            rng2)
    | Option.none =>
      Option.some (first_lobprobs_response,
        { seq with recognizer := seq.recognizer.advance first_lobprobs_response.token },
        rng1)

/-- `sample_target_sequence_speculative` iteration over the chunks
(sampling.rs lines 89-103): run `sample_sequence` sequentially on each
single-position chunk against the same sequence, collecting results in
chunk order; the first failure propagates. -/
def sampleChunks (chunks : List Logits) (seq : Sequence) (return_logprobs : Bool)
    (repeat_last_n : Nat) (tok_trie : TokTrie) (rng : Nat) :
    Option (List Logprobs × Sequence × Nat) :=
  match chunks with
  | [] => Option.some ([], seq, rng)
  | l :: rest =>
    match sample_sequence l seq return_logprobs repeat_last_n tok_trie rng with
    | Option.none => Option.none
    | Option.some (lp, seq1, rng1) =>
      match sampleChunks rest seq1 return_logprobs repeat_last_n tok_trie rng1 with
      | Option.none => Option.none
      | Option.some (lps, seq2, rng2) => Option.some (lp :: lps, seq2, rng2)

/-- Modelled from the spec: `logits.chunk(n_toks, 1)?` partitions the
logits tensor (position axis modelled as a list of per-position
vectors) into `n_toks` single-position chunks, in order; this
requires the position-axis length to equal `n_toks`. -/
def chunkPositions (positions : List Logits) (n_toks : Nat) : Option (List Logits) :=
  if positions.length = n_toks then Option.some positions else Option.none

/-- `sample_target_sequence_speculative` (sampling.rs lines 80-105). -/
def sample_target_sequence_speculative (positions : List Logits) (seq : Sequence)
    (return_logprobs : Bool) (repeat_last_n : Nat) (tok_trie : TokTrie) (rng : Nat)
    (n_toks : Nat) : Option (List Logprobs × Sequence × Nat) :=
  match chunkPositions positions n_toks with
  | Option.none => Option.none
  | Option.some chunks => sampleChunks chunks seq return_logprobs repeat_last_n tok_trie rng

/-! ## Pipeline and loader (gemma.rs, llama.rs) -/

/-- `pipeline::ModelKind`, as matched exhaustively by `_setup_model`. -/
inductive ModelKind where
  | Normal
  | QuantizedGGUF
  | QuantizedGGML
  | XLoraNormal
  | XLoraGGUF
  | XLoraGGML
  | LoraGGUF
  | LoraGGML
  | LoraNormal
deriving DecidableEq, Repr

/-- The private `enum Model` of gemma.rs/llama.rs: either a plain
model or an X-LoRA-capable model (weights are irrelevant to the
dispatch logic and are not carried). -/
inductive Model where
  | Normal
  | XLoraNormal
deriving DecidableEq, Repr

/-- `candle_core::DType`, restricted to the variants `_setup_model`
chooses between. -/
inductive DType where
  | BF16
  | F32
deriving DecidableEq, Repr

/-- The device as consulted by `_setup_model`: only `is_cuda()` is
queried. -/
structure Device where
  is_cuda : Bool
deriving DecidableEq, Repr

/-- The `default_dtype` computed in `GemmaLoader::_setup_model`
(gemma.rs lines 217-221) and `LlamaLoader::_setup_model` (llama.rs
lines 178-182): BF16 on CUDA devices, F32 otherwise. -/
def default_dtype (device : Device) : DType :=
  if device.is_cuda then DType.BF16 else DType.F32

/-- The dtype actually used for weight loading:
`dtype.unwrap_or(default_dtype)` at every `from_mmaped_safetensors`
call in `_setup_model`. -/
def chosen_dtype (dtype : Option DType) (device : Device) : DType :=
  dtype.getD (default_dtype device)

/-- The variant-selection `match self.kind` of `_setup_model`
(gemma.rs lines 226-304, llama.rs lines 187-268): which `Model`
variant is constructed and whether `is_lora` is set. Quantized/GGUF/
GGML kinds hit `unreachable!()`/`todo!()` panics, modelled as
`Option.none`. -/
def setup_variant (kind : ModelKind) : Option (Model × Bool) :=
  match kind with
  | .Normal => Option.some (Model.Normal, false)
  | .XLoraNormal => Option.some (Model.XLoraNormal, false)
  | .LoraNormal => Option.some (Model.XLoraNormal, true)
  | _ => Option.none

/-- The pipeline state the dispatch methods read (`GemmaPipeline` /
`LlamaPipeline`, restricted to the fields those methods touch). -/
structure Pipeline where
  model : Model
  is_lora : Bool
  no_kv_cache : Bool

/-- `is_xlora()` (gemma.rs lines 421-426, llama.rs lines 391-396):
false for `Model::Normal`, `!is_lora` for `Model::XLoraNormal`. -/
def Pipeline.is_xlora (p : Pipeline) : Bool :=
  match p.model with
  | Model.Normal => false
  | Model.XLoraNormal => !p.is_lora

/-- The `ModelInputs` record destructured at the top of `forward`
(tensors are opaque ids; only presence/substitution of the "full"
inputs matters to the dispatch). -/
structure ModelInputs where
  input_ids : Nat
  input_ids_full : Option Nat
  seqlen_offsets : List Nat
  seqlen_offsets_full : Option (List Nat)
  seqlen_offsets_kernel : Nat
  seqlen_offsets_kernel_full : Option Nat
  context_lens : List Nat
deriving DecidableEq, Repr

/-- The argument list a `Model::Normal` forward receives. -/
structure NormalCall where
  input_ids : Nat
  seqlen_offsets : List Nat
  seqlen_offsets_kernel : Nat
  context_lens : List Nat
deriving DecidableEq, Repr

/-- The argument list a `Model::XLoraNormal` forward receives. -/
structure XLoraCall where
  input_ids : Nat
  input_ids_full : Nat
  seqlen_offsets : List Nat
  seqlen_offsets_full : List Nat
  seqlen_offsets_kernel : Nat
  seqlen_offsets_kernel_full : Nat
  no_kv_cache : Bool
  context_lens : List Nat
deriving DecidableEq, Repr

/-- The `match self.model` dispatch inside `forward` (gemma.rs lines
368-386, llama.rs lines 339-357): which inner forward is called and
with which arguments. The "full" arguments are filled by
`unwrap_or` from the non-full ones when absent. -/
def forward_dispatch (p : Pipeline) (inp : ModelInputs) : Sum NormalCall XLoraCall :=
  match p.model with
  | Model.Normal =>
    Sum.inl { input_ids := inp.input_ids
              seqlen_offsets := inp.seqlen_offsets
              seqlen_offsets_kernel := inp.seqlen_offsets_kernel
              context_lens := inp.context_lens }
  | Model.XLoraNormal =>
    Sum.inr { input_ids := inp.input_ids
              input_ids_full := inp.input_ids_full.getD inp.input_ids
              seqlen_offsets := inp.seqlen_offsets
              seqlen_offsets_full := inp.seqlen_offsets_full.getD inp.seqlen_offsets
              seqlen_offsets_kernel := inp.seqlen_offsets_kernel
              seqlen_offsets_kernel_full :=
                inp.seqlen_offsets_kernel_full.getD inp.seqlen_offsets_kernel
              no_kv_cache := p.no_kv_cache
              context_lens := inp.context_lens }

/-! ## Supporting lemmas -/

/-- Inversion principle for a successful `sample_sequence` call: the
first sample succeeded, the updated sequence differs from the input
only in an advanced recognizer, and the result is either the tentative
sample passed through (no bias) or the outcome of resampling the
biased logits. -/
theorem sample_sequence_spec (logits : Logits) (seq : Sequence) (rl : Bool) (n : Nat)
    (trie : TokTrie) (rng : Nat) (lp : Logprobs) (seq' : Sequence) (rng' : Nat)
    (h : sample_sequence logits seq rl n trie rng = Option.some (lp, seq', rng')) :
    ∃ first rng1,
      seq.sampler.sample logits (repeat_context seq n) rl rng = Option.some (first, rng1) ∧
      seq' = { seq with recognizer := seq.recognizer.advance lp.token } ∧
      ((recognizerBias trie seq.recognizer first.token = Option.none ∧
          lp = first ∧ rng' = rng1) ∨
       (∃ ts nl, recognizerBias trie seq.recognizer first.token = Option.some ts ∧
          biasedLogits trie ts logits = Option.some nl ∧
          seq.sampler.sample nl (repeat_context seq n) rl rng1 = Option.some (lp, rng'))) := by
  unfold sample_sequence at h
  split at h
  · exact Option.noConfusion h
  next first rng1 hs1 =>
  refine ⟨first, rng1, hs1, ?_⟩
  split at h
  next ts hbr =>
    split at h
    · exact Option.noConfusion h
    next nl hb =>
    split at h
    · exact Option.noConfusion h
    next second rng2 hs2 =>
    simp only [Option.some.injEq, Prod.mk.injEq] at h
    obtain ⟨h1, h2, h3⟩ := h
    subst h1; subst h3
    exact ⟨h2.symm, Or.inr ⟨ts, nl, hbr, hb, hs2⟩⟩
  next hbr =>
    simp only [Option.some.injEq, Prod.mk.injEq] at h
    obtain ⟨h1, h2, h3⟩ := h
    subst h1; subst h3
    exact ⟨h2.symm, Or.inl ⟨hbr, rfl, rfl⟩⟩

/-- The token set computed by `compute_bias` has one entry per
vocabulary token. -/
theorem compute_token_set_length (trie : TokTrie) (r : Recognizer) :
    (compute_token_set trie r).length = trie.vocab_size := by
  simp [compute_token_set]

/-- `apply_to` over a replicated base evaluates pointwise. -/
theorem apply_to_replicate (bs : List Bool) (v : LVal) :
    apply_to bs (List.replicate bs.length v) =
      bs.map (fun b => if b then LVal.fin 0 else v) := by
  induction bs with
  | nil => rfl
  | cons b rest ih => simp [apply_to, List.replicate] at ih ⊢; exact ih

/-- The bias accumulator, evaluated: entry `t` is `0` for allowed
tokens and `-inf` for disallowed ones, over the whole vocabulary. -/
theorem bias_acc_eq (trie : TokTrie) (r : Recognizer) :
    apply_to (compute_token_set trie r) (List.replicate trie.vocab_size LVal.negInf) =
      (List.range trie.vocab_size).map
        (fun t => if r.allowed r.state t then LVal.fin 0 else LVal.negInf) := by
  rw [← compute_token_set_length trie r, apply_to_replicate]
  simp [compute_token_set, List.map_map]

/-- Adding any logit to `-inf` yields `-inf`. -/
theorem LVal.add_negInf (x : LVal) : x.add LVal.negInf = LVal.negInf := by
  cases x <;> rfl

/-- If the biased logits hold a finite value at index `t`, then `t`
is grammar-allowed in the recognizer state the bias was computed
from. -/
theorem biased_fin_implies_allowed (trie : TokTrie) (r : Recognizer) (logits nl : Logits)
    (hb : biasedLogits trie (compute_token_set trie r) logits = Option.some nl)
    (t : Nat) (v : Int) (ht : nl[t]? = Option.some (LVal.fin v)) :
    r.allowed r.state t = true := by
  unfold biasedLogits tensorAdd at hb
  rw [bias_acc_eq] at hb
  split at hb
  · obtain rfl := Option.some.inj hb
    rw [List.getElem?_zipWith_eq_some] at ht
    obtain ⟨x, y, hx, hy, hxy⟩ := ht
    rw [List.getElem?_map] at hy
    by_cases hall : r.allowed r.state t = true
    · exact hall
    · exfalso
      rcases hrange : (List.range trie.vocab_size)[t]? with _ | t'
      · rw [hrange] at hy; exact Option.noConfusion hy
      · rw [hrange] at hy
        have ht' : t' = t := by
          rcases List.getElem?_eq_some.mp hrange with ⟨hlt, hget⟩
          simpa [List.getElem_range] using hget.symm
        subst ht'
        simp only [Option.map_some', Option.some.injEq] at hy
        rw [eq_comm, if_neg hall] at hy
        rw [hy, LVal.add_negInf] at hxy
        exact LVal.noConfusion hxy
  · exact Option.noConfusion hb

/-- A sampler respects negative-infinity masking when every token it
returns has a finite logit in the vector it sampled from. Softmax- or
argmax-based samplers have this property; it is the interface
assumption under which masked resampling can only yield valid
tokens. -/
def mask_respecting (s : Sampler) : Prop :=
  ∀ logits ctx rl rng lp rng2, s.sample logits ctx rl rng = Option.some (lp, rng2) →
    ∃ v : Int, logits[lp.token]? = Option.some (LVal.fin v)

/-- Frame lemma for `sample_sequence`: the updated sequence is the
input sequence with only the recognizer advanced by the accepted
token. -/
theorem sample_sequence_frame (logits : Logits) (seq : Sequence) (rl : Bool) (n : Nat)
    (trie : TokTrie) (rng : Nat) (lp : Logprobs) (seq' : Sequence) (rng' : Nat)
    (h : sample_sequence logits seq rl n trie rng = Option.some (lp, seq', rng')) :
    seq' = { seq with recognizer := seq.recognizer.advance lp.token } := by
  obtain ⟨first, rng1, _, hseq', _⟩ := sample_sequence_spec logits seq rl n trie rng lp seq' rng' h
  exact hseq'

/-- Iterating `sample_sequence` over chunks yields one `Logprobs` per
chunk, in order, and the final recognizer is the sequential fold of
single-token advances over the accepted tokens; no other sequence
state changes. -/
theorem sampleChunks_spec (rl : Bool) (n : Nat) (trie : TokTrie) :
    ∀ (chunks : List Logits) (seq : Sequence) (rng : Nat) (lps : List Logprobs)
      (seq' : Sequence) (rng' : Nat),
      sampleChunks chunks seq rl n trie rng = Option.some (lps, seq', rng') →
      lps.length = chunks.length ∧
      seq'.recognizer = lps.foldl (fun r lp => r.advance lp.token) seq.recognizer ∧
      seq'.toks = seq.toks ∧ seq'.sampler = seq.sampler := by
  intro chunks
  induction chunks with
  | nil =>
    intro seq rng lps seq' rng' h
    simp only [sampleChunks, Option.some.injEq, Prod.mk.injEq] at h
    obtain ⟨h1, h2, h3⟩ := h
    subst h1; subst h2
    simp
  | cons l rest ih =>
    intro seq rng lps seq' rng' h
    unfold sampleChunks at h
    split at h
    · exact Option.noConfusion h
    next lp seq1 rng1 hs =>
    split at h
    · exact Option.noConfusion h
    next lps1 seq2 rng2 hrest =>
    simp only [Option.some.injEq, Prod.mk.injEq] at h
    obtain ⟨h1, h2, h3⟩ := h
    subst h1; subst h2; subst h3
    obtain ⟨ih1, ih2, ih3, ih4⟩ := ih seq1 rng1 lps1 seq2 rng2 hrest
    have hframe := sample_sequence_frame l seq rl n trie rng lp seq1 rng1 hs
    subst hframe
    refine ⟨by simp [ih1], ?_, ih3, ih4⟩
    rw [List.foldl_cons, ih2]

/-! ## Concrete instances for witnesses and counterexamples -/

/-- Index of the first finite logit, scanning from position `i`. -/
def pickFin : Logits → Nat → Option Nat
  | [], _ => Option.none
  | LVal.negInf :: rest, i => pickFin rest (i + 1)
  | LVal.fin _ :: _, i => Option.some i

/-- A concrete greedy-style sampler: picks the first token with a
finite logit, fails when all logits are `-inf`. -/
def greedySampler : Sampler :=
  ⟨fun logits _ _ rng =>
    (pickFin logits 0).map (fun i => (⟨i, Option.none, Option.none⟩, rng))⟩

/-- `pickFin` only returns indices holding finite logits. -/
theorem pickFin_spec :
    ∀ (l : Logits) (i j : Nat), pickFin l i = Option.some j →
      i ≤ j ∧ ∃ v : Int, l[j - i]? = Option.some (LVal.fin v) := by
  intro l
  induction l with
  | nil => intro i j h; exact Option.noConfusion h
  | cons a rest ih =>
    intro i j h
    cases a with
    | negInf =>
      obtain ⟨hij, v, hv⟩ := ih (i + 1) j h
      refine ⟨by omega, v, ?_⟩
      have hidx : j - i = (j - (i + 1)) + 1 := by omega
      rw [hidx]
      simpa using hv
    | fin w =>
      obtain rfl := Option.some.inj h
      exact ⟨Nat.le_refl i, w, by simp⟩

/-- The greedy sampler respects negative-infinity masking. -/
theorem greedySampler_mask_respecting : mask_respecting greedySampler := by
  intro logits ctx rl rng lp rng2 h
  simp only [greedySampler, Option.map_eq_some'] at h
  obtain ⟨i, hpick, heq⟩ := h
  obtain ⟨h1, h2⟩ := Prod.mk.injEq .. ▸ heq
  obtain ⟨v, hv⟩ := (pickFin_spec logits 0 i hpick).2
  rw [← h1]
  exact ⟨v, by simpa using hv⟩

/-- A sampler that always returns token 0 and never fails. -/
def constSampler : Sampler :=
  ⟨fun _ _ _ rng => Option.some (⟨0, Option.none, Option.none⟩, rng)⟩

/-- A recognizer whose automaton allows only token 1, in every
state. -/
def onlyTokenOne : Recognizer :=
  ⟨0, fun _ t => t == 1, fun s _ => s⟩

/-- A recognizer that rejects every token: its valid-token set is
empty (total rejection). -/
def rejectAll : Recognizer :=
  ⟨0, fun _ _ => false, fun s _ => s⟩

/-- A recognizer that allows every token. -/
def allowAll : Recognizer :=
  ⟨0, fun _ _ => true, fun s _ => s⟩

/-- A sequence with a regex recognizer restricting output to token 1
and a greedy sampler, over a 3-token vocabulary. -/
def c1Seq : Sequence := ⟨[], SequenceRecognizer.regex onlyTokenOne, greedySampler⟩

/-- A 3-token vocabulary trie. -/
def c1Trie : TokTrie := ⟨3⟩

/-- Logits strongly favouring the disallowed token 0. -/
def c1Logits : Logits := [LVal.fin 5, LVal.fin 0, LVal.fin 2]

/-- A sequence whose recognizer rejects every token, with a sampler
that always succeeds. -/
def c2Seq : Sequence := ⟨[], SequenceRecognizer.regex rejectAll, constSampler⟩

/-- A 2-token vocabulary trie. -/
def c2Trie : TokTrie := ⟨2⟩

/-- Finite logits over the 2-token vocabulary. -/
def c2Logits : Logits := [LVal.fin 1, LVal.fin 1]

/-- An unconstrained sequence with one generated token. -/
def c3Seq : Sequence := ⟨[5], SequenceRecognizer.none, constSampler⟩

/-- A two-position logits tensor (position axis of length 2). -/
def c3Positions : List Logits := [[LVal.fin 1], [LVal.fin 2]]

/-- The two sampling results collected by the speculative step on
`c3Positions`. -/
def c3Lps : List Logprobs :=
  [⟨0, Option.none, Option.none⟩, ⟨0, Option.none, Option.none⟩]

/-- A sequence whose recognizer allows every token. -/
def c5Seq : Sequence := ⟨[], SequenceRecognizer.regex allowAll, constSampler⟩

/-- A sequence with two generated tokens, for the repeat-window
claim. -/
def c10Seq : Sequence := ⟨[4, 9], SequenceRecognizer.none, constSampler⟩

/-! ## Claims -/

/-- C1: for every sequence whose recognizer is Regex or Cfg (not
None) and whose sampler respects negative-infinity masking, the token
returned by `sample_sequence` is grammar-valid for the recognizer
state as it was immediately before the call: either the tentative
sample was already allowed and passes through, or the token comes from
resampling logits biased to `-inf` outside the currently-valid set;
no disallowed token is ever returned. -/
theorem claim_c1_grammar_valid_token (logits : Logits) (seq : Sequence) (rl : Bool)
    (n : Nat) (trie : TokTrie) (rng : Nat) (lp : Logprobs) (seq' : Sequence) (rng' : Nat)
    (hmask : mask_respecting seq.sampler)
    (hrec : seq.recognizer ≠ SequenceRecognizer.none)
    (h : sample_sequence logits seq rl n trie rng = Option.some (lp, seq', rng')) :
    seq.recognizer.allows lp.token = true := by
  obtain ⟨first, rng1, hs1, hseq', hbr⟩ :=
    sample_sequence_spec logits seq rl n trie rng lp seq' rng' h
  rcases hbr with ⟨hnone, rfl, _⟩ | ⟨ts, nl, hsome, hb, hs2⟩
  · cases hr : seq.recognizer with
    | regex r =>
      rw [hr] at hnone
      simp only [recognizerBias, get_bias_if_not_allowed] at hnone
      split at hnone
      · next hall => simp [SequenceRecognizer.allows, hr, hall]
      · exact Option.noConfusion hnone
    | cfg r =>
      rw [hr] at hnone
      simp only [recognizerBias, get_bias_if_not_allowed] at hnone
      split at hnone
      · next hall => simp [SequenceRecognizer.allows, hr, hall]
      · exact Option.noConfusion hnone
    | none => exact absurd hr hrec
  · obtain ⟨v, hfin⟩ := hmask nl (repeat_context seq n) rl rng1 lp rng' hs2
    cases hr : seq.recognizer with
    | regex r =>
      rw [hr] at hsome
      simp only [recognizerBias, get_bias_if_not_allowed] at hsome
      split at hsome
      · exact Option.noConfusion hsome
      · obtain rfl := Option.some.inj hsome
        have hallowed := biased_fin_implies_allowed trie r logits nl hb lp.token v hfin
        simp [SequenceRecognizer.allows, hr, hallowed]
    | cfg r =>
      rw [hr] at hsome
      simp only [recognizerBias, get_bias_if_not_allowed] at hsome
      split at hsome
      · exact Option.noConfusion hsome
      · obtain rfl := Option.some.inj hsome
        have hallowed := biased_fin_implies_allowed trie r logits nl hb lp.token v hfin
        simp [SequenceRecognizer.allows, hr, hallowed]
    | none => exact absurd hr hrec

/-- C1 witness: with a 3-token vocabulary, a recognizer allowing only
token 1, logits favouring token 0 and the greedy sampler, the
constrained step returns token 1, which is grammar-valid. -/
theorem claim_c1_witness : SequenceRecognizer.allows c1Seq.recognizer 1 = true := by
  have h : sample_sequence c1Logits c1Seq false 64 c1Trie 0 =
      Option.some (⟨1, Option.none, Option.none⟩, c1Seq, 0) := rfl
  exact claim_c1_grammar_valid_token c1Logits c1Seq false 64 c1Trie 0
    ⟨1, Option.none, Option.none⟩ c1Seq 0 greedySampler_mask_respecting
    (by simp [c1Seq]) h

/-- C2 counterexample: with an empty valid-token set (total
rejection: the recognizer rejects every token), `sample_sequence`
does not propagate a fatal decoding error — it silently resamples
from the fully-biased logits and returns successfully. -/
theorem claim_c2_counterexample :
    (∀ t, rejectAll.allowed rejectAll.state t = false) ∧
    sample_sequence c2Logits c2Seq false 64 c2Trie 0 =
      Option.some (⟨0, Option.none, Option.none⟩, c2Seq, 0) :=
  ⟨fun _ => rfl, rfl⟩

/-- C2 amended: the bias vector always has length exactly the
vocabulary size and covers every token id exactly once, even for an
empty valid-token set; but on total rejection `sample_sequence` does
not raise an error of its own — it builds an all-negative-infinity
bias and silently resamples from the fully-biased logits, its outcome
being exactly whatever the sampler returns there. -/
theorem claim_c2_amended (trie : TokTrie) (r : Recognizer) :
    (apply_to (compute_token_set trie r)
        (List.replicate trie.vocab_size LVal.negInf)).length = trie.vocab_size ∧
    (∀ t, t < trie.vocab_size →
      (compute_token_set trie r)[t]? = Option.some (r.allowed r.state t)) ∧
    ((∀ t, r.allowed r.state t = false) →
      apply_to (compute_token_set trie r) (List.replicate trie.vocab_size LVal.negInf) =
        List.replicate trie.vocab_size LVal.negInf) ∧
    (∀ (logits : Logits) (seq : Sequence) (rl : Bool) (n rng : Nat)
        (first : Logprobs) (rng1 : Nat),
      seq.recognizer = SequenceRecognizer.regex r ∨
        seq.recognizer = SequenceRecognizer.cfg r →
      (∀ t, r.allowed r.state t = false) →
      logits.length = trie.vocab_size →
      seq.sampler.sample logits (repeat_context seq n) rl rng = Option.some (first, rng1) →
      sample_sequence logits seq rl n trie rng =
        (seq.sampler.sample
            (List.zipWith LVal.add logits (List.replicate trie.vocab_size LVal.negInf))
            (repeat_context seq n) rl rng1).map
          (fun p => (p.1, { seq with recognizer := seq.recognizer.advance p.1.token }, p.2))) := by
  have hlen : (apply_to (compute_token_set trie r)
      (List.replicate trie.vocab_size LVal.negInf)).length = trie.vocab_size := by
    simp [apply_to, compute_token_set]
  have hall_neg : (∀ t, r.allowed r.state t = false) →
      apply_to (compute_token_set trie r) (List.replicate trie.vocab_size LVal.negInf) =
        List.replicate trie.vocab_size LVal.negInf := by
    intro hfalse
    rw [bias_acc_eq]
    rw [List.eq_replicate_iff]
    refine ⟨by simp, ?_⟩
    intro b hb
    simp only [List.mem_map, List.mem_range] at hb
    obtain ⟨t, _, hbt⟩ := hb
    rw [← hbt, hfalse t]
    rfl
  refine ⟨hlen, ?_, hall_neg, ?_⟩
  · intro t ht
    simp [compute_token_set, List.getElem?_range ht]
  · intro logits seq rl n rng first rng1 hrec hfalse hlg hs1
    have hbr : recognizerBias trie seq.recognizer first.token =
        Option.some (compute_token_set trie r) := by
      rcases hrec with hrec | hrec <;> rw [hrec] <;>
        simp [recognizerBias, get_bias_if_not_allowed, hfalse]
    have hacc : biasedLogits trie (compute_token_set trie r) logits =
        Option.some (List.zipWith LVal.add logits
          (List.replicate trie.vocab_size LVal.negInf)) := by
      unfold biasedLogits tensorAdd
      rw [hall_neg hfalse]
      simp [hlg]
    unfold sample_sequence
    rw [hs1]
    simp only [hbr, hacc]
    cases hs2 : seq.sampler.sample
        (List.zipWith LVal.add logits (List.replicate trie.vocab_size LVal.negInf))
        (repeat_context seq n) rl rng1 with
    | none => simp
    | some p => simp

/-- C2 witness: over the 2-token vocabulary with the reject-all
recognizer, the bias vector has length 2 and the constrained step on
`c2Seq` equals the sampler's output on the fully-biased logits. -/
theorem claim_c2_witness :
    (apply_to (compute_token_set c2Trie rejectAll)
        (List.replicate c2Trie.vocab_size LVal.negInf)).length = c2Trie.vocab_size ∧
    sample_sequence c2Logits c2Seq false 64 c2Trie 0 =
      (c2Seq.sampler.sample
          (List.zipWith LVal.add c2Logits (List.replicate c2Trie.vocab_size LVal.negInf))
          (repeat_context c2Seq 64) false 0).map
        (fun p => (p.1, { c2Seq with recognizer := c2Seq.recognizer.advance p.1.token }, p.2)) := by
  have h := claim_c2_amended c2Trie rejectAll
  exact ⟨h.1, h.2.2.2 c2Logits c2Seq false 64 0 ⟨0, Option.none, Option.none⟩ 0 (Or.inl rfl)
    (fun _ => rfl) rfl rfl⟩

/-- C3: for every logits tensor with N candidate positions,
`sample_target_sequence_speculative` returns exactly N `Logprobs` in
position order, the recognizer state after the call is the result of
exactly N sequential single-token advances (each using the state left
by the previous one), and the chunk count equals the tensor's
position-axis length. -/
theorem claim_c3_speculative (positions : List Logits) (seq : Sequence) (rl : Bool)
    (n : Nat) (trie : TokTrie) (rng : Nat) (n_toks : Nat) (lps : List Logprobs)
    (seq' : Sequence) (rng' : Nat)
    (hn : positions.length = n_toks)
    (h : sample_target_sequence_speculative positions seq rl n trie rng n_toks =
      Option.some (lps, seq', rng')) :
    chunkPositions positions n_toks = Option.some positions ∧
    lps.length = n_toks ∧
    seq'.recognizer = lps.foldl (fun r lp => r.advance lp.token) seq.recognizer ∧
    seq'.toks = seq.toks := by
  have hch : chunkPositions positions n_toks = Option.some positions := by
    simp [chunkPositions, hn]
  unfold sample_target_sequence_speculative at h
  rw [hch] at h
  obtain ⟨h1, h2, h3, _⟩ := sampleChunks_spec rl n trie positions seq rng lps seq' rng' h
  exact ⟨hch, by rw [h1, hn], h2, h3⟩

/-- C3 witness: a 2-position tensor yields exactly 2 `Logprobs`, with
the recognizer state the fold of the two advances. -/
theorem claim_c3_witness :
    c3Lps.length = 2 ∧
    c3Seq.recognizer = c3Lps.foldl (fun r lp => r.advance lp.token) c3Seq.recognizer := by
  have h := claim_c3_speculative c3Positions c3Seq false 64 ⟨1⟩ 0 2 c3Lps c3Seq 0 rfl rfl
  exact ⟨h.2.1, h.2.2.1⟩

/-- C4: for every sequence whose recognizer is None,
`sample_sequence` performs no grammar query (the bias computation is
identically `none`) and no grammar advance, and returns exactly the
sampler's first (unbiased) choice with the sequence unchanged. -/
theorem claim_c4_none_passthrough (logits : Logits) (seq : Sequence)
    (rl : Bool) (n : Nat) (trie : TokTrie) (rng : Nat)
    (h : seq.recognizer = SequenceRecognizer.none) :
    (∀ t, recognizerBias trie seq.recognizer t = Option.none) ∧
    sample_sequence logits seq rl n trie rng =
      (seq.sampler.sample logits (repeat_context seq n) rl rng).map
        (fun p => (p.1, seq, p.2)) := by
  obtain ⟨toks, rec, smp⟩ := seq
  simp only at h
  subst h
  refine ⟨fun t => rfl, ?_⟩
  unfold sample_sequence
  cases hs : Sampler.sample smp logits
      (repeat_context ⟨toks, SequenceRecognizer.none, smp⟩ n) rl rng with
  | none => simp [hs]
  | some p => simp [hs, recognizerBias, SequenceRecognizer.advance]

/-- C4 witness: on the unconstrained sequence `c3Seq` the step is the
sampler's unbiased choice, passed through. -/
theorem claim_c4_witness :
    sample_sequence [LVal.fin 3] c3Seq false 64 ⟨1⟩ 0 =
      (c3Seq.sampler.sample [LVal.fin 3] (repeat_context c3Seq 64) false 0).map
        (fun p => (p.1, c3Seq, p.2)) :=
  (claim_c4_none_passthrough [LVal.fin 3] c3Seq false 64 ⟨1⟩ 0 rfl).2

/-- C5: the bias-and-resample path is taken iff the tentative token
from the first sampling call is grammar-invalid for the current
recognizer state (the bias computation is `none` iff the token is
allowed); whenever the tentative token is valid, the result is
exactly the first sampling response, unaltered. -/
theorem claim_c5_resample_iff_invalid (logits : Logits) (seq : Sequence) (rl : Bool)
    (n : Nat) (trie : TokTrie) (rng : Nat) (first : Logprobs) (rng1 : Nat)
    (hs1 : seq.sampler.sample logits (repeat_context seq n) rl rng =
      Option.some (first, rng1)) :
    (recognizerBias trie seq.recognizer first.token = Option.none ↔
      seq.recognizer.allows first.token = true) ∧
    (seq.recognizer.allows first.token = true →
      sample_sequence logits seq rl n trie rng =
        Option.some (first,
          { seq with recognizer := seq.recognizer.advance first.token }, rng1)) := by
  have hiff : recognizerBias trie seq.recognizer first.token = Option.none ↔
      seq.recognizer.allows first.token = true := by
    cases hr : seq.recognizer with
    | regex r =>
      by_cases hall : r.allowed r.state first.token = true <;>
        simp [recognizerBias, get_bias_if_not_allowed, SequenceRecognizer.allows, hall]
    | cfg r =>
      by_cases hall : r.allowed r.state first.token = true <;>
        simp [recognizerBias, get_bias_if_not_allowed, SequenceRecognizer.allows, hall]
    | none => simp [recognizerBias, SequenceRecognizer.allows]
  refine ⟨hiff, fun hall => ?_⟩
  unfold sample_sequence
  rw [hs1]
  simp only [hiff.mpr hall]

/-- C5 witness: with an all-allowing recognizer the tentative token 0
is valid and the step returns the first response unaltered. -/
theorem claim_c5_witness :
    sample_sequence [LVal.fin 7] c5Seq false 64 ⟨1⟩ 0 =
      Option.some (⟨0, Option.none, Option.none⟩,
        { c5Seq with recognizer := c5Seq.recognizer.advance 0 }, 0) :=
  (claim_c5_resample_iff_invalid [LVal.fin 7] c5Seq false 64 ⟨1⟩ 0
    ⟨0, Option.none, Option.none⟩ 0 rfl).2 rfl

/-- An X-LoRA pipeline (X-LoRA variant, LoRA-reduction flag off). -/
def xloraPipe : Pipeline := ⟨Model.XLoraNormal, false, false⟩

/-- Model inputs with every "full" component absent. -/
def missingFullInputs : ModelInputs :=
  ⟨7, Option.none, [3], Option.none, 5, Option.none, [1]⟩

/-- C6: for every constructed pipeline variant, `is_xlora()` returns
true iff the model variant is `XLoraNormal` and the `is_lora`
reduction flag is false; in particular it is false for the `Normal`
kind and the `LoraNormal` kind, and true for the `XLoraNormal`
kind. -/
theorem claim_c6_is_xlora (kind : ModelKind) (m : Model) (lora nkv : Bool)
    (h : setup_variant kind = Option.some (m, lora)) :
    (Pipeline.is_xlora ⟨m, lora, nkv⟩ = true ↔ m = Model.XLoraNormal ∧ lora = false) ∧
    (kind = ModelKind.Normal → Pipeline.is_xlora ⟨m, lora, nkv⟩ = false) ∧
    (kind = ModelKind.LoraNormal → Pipeline.is_xlora ⟨m, lora, nkv⟩ = false) ∧
    (kind = ModelKind.XLoraNormal → Pipeline.is_xlora ⟨m, lora, nkv⟩ = true) := by
  cases kind <;> simp only [setup_variant] at h <;>
    first
    | exact Option.noConfusion h
    | · obtain ⟨rfl, rfl⟩ := Prod.mk.injEq .. ▸ Option.some.inj h
        simp [Pipeline.is_xlora]

/-- C6 witness: the pipeline built from the `XLoraNormal` kind
reports `is_xlora() = true`. -/
theorem claim_c6_witness : Pipeline.is_xlora ⟨Model.XLoraNormal, false, false⟩ = true :=
  (claim_c6_is_xlora ModelKind.XLoraNormal Model.XLoraNormal false false rfl).2.2.2 rfl

/-- C7 counterexample: with an X-LoRA variant and all "full" inputs
missing, `forward` does not fail — the dispatch silently substitutes
the non-full inputs in place of the full ones (`unwrap_or`) and
proceeds with the model call. -/
theorem claim_c7_counterexample :
    missingFullInputs.input_ids_full = Option.none ∧
    forward_dispatch xloraPipe missingFullInputs =
      Sum.inr ⟨7, 7, [3], [3], 5, 5, false, [1]⟩ :=
  ⟨rfl, rfl⟩

/-- C7 amended: for every forward call on an X-LoRA-variant pipeline
whose "full" input set is missing, the dispatch substitutes the
non-full inputs for the full ones via `unwrap_or` and proceeds with
the model call; no error is raised at the dispatch site for missing
full inputs. -/
theorem claim_c7_amended (p : Pipeline) (inp : ModelInputs)
    (hm : p.model = Model.XLoraNormal)
    (h1 : inp.input_ids_full = Option.none)
    (h2 : inp.seqlen_offsets_full = Option.none)
    (h3 : inp.seqlen_offsets_kernel_full = Option.none) :
    forward_dispatch p inp = Sum.inr
      { input_ids := inp.input_ids
        input_ids_full := inp.input_ids
        seqlen_offsets := inp.seqlen_offsets
        seqlen_offsets_full := inp.seqlen_offsets
        seqlen_offsets_kernel := inp.seqlen_offsets_kernel
        seqlen_offsets_kernel_full := inp.seqlen_offsets_kernel
        no_kv_cache := p.no_kv_cache
        context_lens := inp.context_lens } := by
  simp [forward_dispatch, hm, h1, h2, h3]

/-- C7 witness: the amended behaviour at the concrete missing-full
inputs. -/
theorem claim_c7_witness :
    forward_dispatch xloraPipe missingFullInputs =
      Sum.inr ⟨7, 7, [3], [3], 5, 5, false, [1]⟩ :=
  claim_c7_amended xloraPipe missingFullInputs rfl rfl rfl rfl

/-- C8: `sample_sequence` never appends to the sequence's
generated-token list and leaves the sampler untouched; of the
sequence's state only the recognizer automaton state is mutated (and
only by advancing on the accepted token). -/
theorem claim_c8_no_append (logits : Logits) (seq : Sequence) (rl : Bool)
    (n : Nat) (trie : TokTrie) (rng : Nat) (lp : Logprobs) (seq' : Sequence) (rng' : Nat)
    (h : sample_sequence logits seq rl n trie rng = Option.some (lp, seq', rng')) :
    seq'.toks = seq.toks ∧ seq'.sampler = seq.sampler ∧
    seq' = { seq with recognizer := seq.recognizer.advance lp.token } := by
  have hf := sample_sequence_frame logits seq rl n trie rng lp seq' rng' h
  subst hf
  exact ⟨rfl, rfl, rfl⟩

/-- C8 witness: the frame condition at a concrete constrained decode
step. -/
theorem claim_c8_witness :
    c1Seq.toks = c1Seq.toks ∧ c1Seq.sampler = c1Seq.sampler ∧
    c1Seq = { c1Seq with recognizer := c1Seq.recognizer.advance 1 } :=
  claim_c8_no_append c1Logits c1Seq false 64 c1Trie 0
    ⟨1, Option.none, Option.none⟩ c1Seq 0 rfl

/-- C9: when the caller passes no explicit dtype, `_setup_model`
loads weights in BF16 on a CUDA device and F32 otherwise; an
explicitly pinned dtype is used regardless of device. -/
theorem claim_c9_default_dtype :
    (∀ dev : Device, chosen_dtype Option.none dev =
      if dev.is_cuda then DType.BF16 else DType.F32) ∧
    (∀ (dev : Device) (d : DType), chosen_dtype (Option.some d) dev = d) :=
  ⟨fun _ => rfl, fun _ _ => rfl⟩

/-- C10: the repeat-context window start is computed with saturating
subtraction, so it never underflows, the slice is always in bounds,
the window holds `min repeat_last_n history` tokens, and when the
history is shorter than `repeat_last_n` the entire history is
used. -/
theorem claim_c10_repeat_window (seq : Sequence) (repeat_last_n : Nat) :
    start_at seq repeat_last_n ≤ seq.toks.length ∧
    repeat_context seq repeat_last_n = seq.toks.drop (start_at seq repeat_last_n) ∧
    (repeat_context seq repeat_last_n).length = min repeat_last_n seq.toks.length ∧
    (seq.toks.length ≤ repeat_last_n → repeat_context seq repeat_last_n = seq.toks) := by
  refine ⟨Nat.sub_le _ _, rfl, ?_, ?_⟩
  · simp only [repeat_context, start_at, List.length_drop]
    omega
  · intro hle
    simp [repeat_context, start_at, Nat.sub_eq_zero_of_le hle]

/-- C10 witness: a 2-token history with `repeat_last_n = 64` starts
the window at 0 and uses the whole history. -/
theorem claim_c10_witness :
    start_at c10Seq 64 ≤ c10Seq.toks.length ∧ repeat_context c10Seq 64 = c10Seq.toks := by
  have h := claim_c10_repeat_window c10Seq 64
  exact ⟨h.1, h.2.2.2 (by decide)⟩

end MistralRS
